import Mathlib

/-!
Verification of the layered configuration resolution and package-composition
engine of the `prod` CLI tool.

The definitions below are a shallow embedding of the Python sources:

  * `src/config_manager.py`      (`ConfigManager`)
  * `src/path_processor.py`      (`PathProcessor.split_paths`)
  * `src/production_environment.py`
      (`SoftwareConfig`, `PipelineConfig`, `ProductionEnvironment`)
  * `src/rez_manager.py`         (only the `__init__` signature is relevant)

Conventions of the embedding:

  * `configparser` data is modelled at the parsed level: a configuration
    source (`Ini`) is an ordered list of sections, each an ordered list of
    key/value pairs.  `configparser.ConfigParser.read` folds such a source
    into the parser's existing state key-for-key (later reads win per key),
    which is modelled by `readInto`.  Interpolation (`%`), the `DEFAULT`
    section and the empty section name are not exercised by this program's
    configuration data and are not modelled.
  * Python exceptions are modelled by `Except PyErr`.  `ConfigError`,
    `IndexError` and `TypeError` are the constructors of `PyErr`.
  * Logging at warning level is modelled by a `Bool` flag (`true` iff the
    code path logs a warning) or by a list of warning messages.
  * Python functions that cannot raise are modelled as plain total functions.
-/

/-- Python exceptions raised by the modelled code. -/
inductive PyErr where
  /-- `src.exceptions.ConfigError` with its message. -/
  | configError (msg : String)
  /-- `IndexError` (out-of-range indexing, e.g. `()[0]`). -/
  | indexError
  /-- `TypeError` (e.g. a call with an unexpected keyword argument). -/
  | typeError (msg : String)
deriving DecidableEq, Repr

deriving instance DecidableEq for Except

/-- Lexicographic comparison of character lists by code point, as used by
Python's string `<=` (and hence by `sorted` on section names). -/
def lexLe : List Char → List Char → Bool
  | [], _ => true
  | _ :: _, [] => false
  | a :: as, b :: bs => if a = b then lexLe as bs else decide (a < b)

/-- Python's `<=` on strings: lexicographic by code point. -/
def strLe (a b : String) : Prop := lexLe a.data b.data = true

instance : DecidableRel strLe := fun a b => by unfold strLe; infer_instance

/-- An ordered list of key/value pairs: one `configparser` section body. -/
abbrev Entries := List (String × String)

/-- A parsed configuration source: ordered sections with their entries.
Mirrors the result of `configparser` parsing one `.ini` file. -/
abbrev Ini := List (String × Entries)

/-- First-match lookup in a section body (Python dict lookup; the parsed
sections of one file have unique keys, `configparser` rejects duplicates). -/
def lookupEntry : Entries → String → Option String
  | [], _ => none
  | (k, v) :: rest, key => if k = key then some v else lookupEntry rest key

/-- Python dict assignment `d[k] = v`: replace the first binding of `k`,
or append a new binding. -/
def setEntry : Entries → String → String → Entries
  | [], k, v => [(k, v)]
  | (k', v') :: rest, k, v =>
      if k' = k then (k, v) :: rest else (k', v') :: setEntry rest k v

/-- The state of one `configparser.ConfigParser`: its sections in insertion
order with their (mutated-in-place) entries. -/
abbrev Store := Ini

/-- `parser.has_section(sect)` restricted to one store; also the section
accessor used below. -/
def storeSection : Store → String → Option Entries
  | [], _ => none
  | (n, es) :: rest, sect => if n = sect then some es else storeSection rest sect

/-- `parser[sect][key]` / `parser.has_option(sect, key)` as an optional
value: `none` iff the section is missing or does not bind the key. -/
def storeLookup (st : Store) (sect key : String) : Option String :=
  match storeSection st sect with
  | none => none
  | some es => lookupEntry es key

/-- `parser[sect][key] = v` including section auto-creation, as performed by
`configparser.read` when folding a parsed file into existing state. -/
def storeSet : Store → String → String → String → Store
  | [], sect, key, v => [(sect, [(key, v)])]
  | (n, es) :: rest, sect, key, v =>
      if n = sect then (n, setEntry es key v) :: rest
      else (n, es) :: storeSet rest sect key v

/-- Fold the entries of one parsed section into the store
(`configparser.read`, inner loop). -/
def readEntries (st : Store) (sect : String) : Entries → Store
  | [] => st
  | (k, v) :: rest => readEntries (storeSet st sect k v) sect rest

/-- `configparser.ConfigParser.read`: fold a whole parsed source into the
parser's existing state, later values winning key-for-key. -/
def readInto (st : Store) : Ini → Store
  | [] => st
  | (sect, es) :: rest => readInto (readEntries st sect es) rest

/-- `src/config_manager.py` `ConfigManager`: one base parser that all
`load_config` calls merge into, plus one override parser. -/
structure ConfigManager where
  base : Store
  override : Store
deriving DecidableEq, Repr

/-- `ConfigManager()` — both parsers empty. -/
def ConfigManager.empty : ConfigManager := ⟨[], []⟩

/-- `ConfigManager.load_config` after the existence check: merge one parsed
source into the base parser (`config_manager.py:33-50`). -/
def ConfigManager.loadParsed (cm : ConfigManager) (src : Ini) : ConfigManager :=
  { cm with base := readInto cm.base src }

/-- `ConfigManager.set_override` (`config_manager.py:72-84`). -/
def ConfigManager.set_override (cm : ConfigManager) (sect key v : String) :
    ConfigManager :=
  { cm with override := storeSet cm.override sect key v }

/-- `ConfigManager.get_merged_config` (`config_manager.py:86-112`):
override parser first, then the (squashed) base parser, then the default,
else `ConfigError`. -/
def ConfigManager.get_merged_config (cm : ConfigManager)
    (sect key : String) (default : Option String) : Except PyErr String :=
  match storeLookup cm.override sect key with
  | some v => .ok v
  | none =>
    match storeLookup cm.base sect key with
    | some v => .ok v
    | none =>
      match default with
      | some d => .ok d
      | none => .error (.configError
          ("Configuration key not found: " ++ sect ++ "." ++ key))

/-- `dict.update` over an association list (`config_manager.py:114-132`). -/
def dictUpdate (d : Entries) (src : Entries) : Entries :=
  src.foldl (fun acc p => setEntry acc p.1 p.2) d

/-- `ConfigManager.get_section` (`config_manager.py:114-132`): base section
entries, updated by the override section entries. -/
def ConfigManager.get_section (cm : ConfigManager) (sect : String) : Entries :=
  dictUpdate (dictUpdate [] ((storeSection cm.base sect).getD []))
    ((storeSection cm.override sect).getD [])

/-- `ConfigManager.has_section` (`config_manager.py:134-146`). -/
def ConfigManager.has_section (cm : ConfigManager) (sect : String) : Bool :=
  (storeSection cm.base sect).isSome || (storeSection cm.override sect).isSome

/-- `ConfigManager.get_sections` (`config_manager.py:148-157`):
`sorted(set(base sections) ∪ set(override sections))`.  The set union is
modelled by `dedup` of the concatenation; `sorted` by insertion sort under
the lexicographic order on strings (Python compares strings by code point,
as does `String`'s `LinearOrder`). -/
def ConfigManager.get_sections (cm : ConfigManager) : List String :=
  List.insertionSort strLe
    ((cm.base.map Prod.fst ++ cm.override.map Prod.fst).dedup)

/-- `ConfigManager.clear_overrides` (`config_manager.py:159-162`). -/
def ConfigManager.clear_overrides (cm : ConfigManager) : ConfigManager :=
  { cm with override := [] }

/-- The sentinel scan of `PathProcessor.split_paths`
(`path_processor.py:33-45`): wherever a letter is followed by a colon and a
slash or backslash, the colon is replaced by the sentinel `@` so that it
survives the subsequent split.  The Python loop scans left to right over the
in-place-updated string and advances by one; after a rewrite the next two
windows can never match (they start at `@` resp. at a slash), so the scan is
equivalent to this recursion. -/
def sentinelize : List Char → List Char
  | a :: b :: c :: rest =>
      if a.isAlpha ∧ b = ':' ∧ (c = '\\' ∨ c = '/') then
        a :: '@' :: sentinelize (c :: rest)
      else
        a :: sentinelize (b :: c :: rest)
  | cs => cs

/-- Python `str.split(":")` on the character level: `""` yields one empty
fragment, separators delimit possibly-empty fragments. -/
def splitOnColon : List Char → List (List Char)
  | [] => [[]]
  | c :: rest =>
      if c = ':' then [] :: splitOnColon rest
      else
        match splitOnColon rest with
        | f :: fs => (c :: f) :: fs
        | [] => [[c]]

/-- Restore the sentinel: Python `part.replace("@", ":")` — a character-wise
replacement since both pattern and replacement are single characters. -/
def restoreSentinel (cs : List Char) : List Char :=
  cs.map fun ch => if ch = '@' then ':' else ch

/-- `PathProcessor.split_paths` (`path_processor.py:22-65`). -/
def split_paths (s : String) : List String :=
  let temp := sentinelize s.data
  let parts := splitOnColon temp
  let result := parts.filterMap fun part =>
    if '@' ∈ part then some (String.mk (restoreSentinel part))
    else if part ≠ [] then some (String.mk part)
    else none
  if result = [] ∧ s ≠ "" then [s] else result

/-- Skip ASCII whitespace, as `ast.literal_eval` tolerates around tokens. -/
def skipSpaces : List Char → List Char
  | c :: rest =>
      if c = ' ' ∨ c = '\t' ∨ c = '\n' ∨ c = '\r' then skipSpaces rest
      else c :: rest
  | [] => []

/-- Scan a quoted string body up to the closing quote `q`.  Escapes are
rejected (`none`); the configuration values in scope never contain them. -/
def scanQuoted (q : Char) : List Char → Option (List Char × List Char)
  | [] => none
  | c :: rest =>
      if c = q then some ([], rest)
      else if c = '\\' then none
      else (scanQuoted q rest).map fun p => (c :: p.1, p.2)

/-- Parse one single- or double-quoted string literal. -/
def parseQuoted : List Char → Option (String × List Char)
  | c :: rest =>
      if c = '"' ∨ c = '\'' then
        (scanQuoted c rest).map fun p => (String.mk p.1, p.2)
      else none
  | [] => none

/-- Parse the items of a list literal after the opening bracket, up to and
including the closing bracket.  `fuel` bounds the recursion (the input
length always suffices). -/
def parseItems (fuel : Nat) (cs : List Char) : Option (List String × List Char) :=
  let cs := skipSpaces cs
  match cs with
  | ']' :: rest => some ([], rest)
  | _ =>
    match parseQuoted cs with
    | none => none
    | some (s, cs') =>
      match skipSpaces cs' with
      | ']' :: rest => some ([s], rest)
      | ',' :: rest =>
        match fuel with
        | 0 => none
        | fuel + 1 =>
          match parseItems fuel rest with
          | some (ss, r) => some (s :: ss, r)
          | none => none
      | _ => none

/-- Modelled from the spec: Python's `ast.literal_eval` (standard library,
outside `src/`) applied to a `packages` value, restricted to the spec's
list-of-quoted-strings grammar (§6).  `none` models `literal_eval` raising
`SyntaxError` or `ValueError`; `some pkgs` models a successful decode of a
list of strings.  Values decoding to a non-list literal are outside the
configuration grammar and are not modelled. -/
def literalEvalStrList (raw : String) : Option (List String) :=
  match skipSpaces raw.data with
  | '[' :: rest =>
    match parseItems raw.length rest with
    | some (ss, r) => if skipSpaces r = [] then some ss else none
    | none => none
  | _ => none

/-- `SoftwareConfig.get_software_version`
(`production_environment.py:39-59`). -/
def get_software_version (cm : ConfigManager) (sw : String) :
    Except PyErr String :=
  if cm.has_section sw = false then
    .error (.configError s!"Software '{sw}' is not configured")
  else
    match cm.get_merged_config sw "version" none with
    | .ok v => .ok v
    | .error _ =>
        .error (.configError s!"Version for software '{sw}' is not configured")

/-- `SoftwareConfig.get_required_packages`
(`production_environment.py:61-83`).  The `Bool` is `true` iff the decode
failure path logged its warning. -/
def get_required_packages (cm : ConfigManager) (sw : String) :
    Except PyErr (List String × Bool) :=
  if cm.has_section sw = false then
    .error (.configError s!"Software '{sw}' is not configured")
  else
    match cm.get_merged_config sw "packages" (some "[]") with
    | .error e => .error e
    | .ok raw =>
      match literalEvalStrList raw with
      | some pkgs => .ok (pkgs, false)
      | none => .ok ([], true)

/-- `SoftwareConfig.get_configured_software`
(`production_environment.py:85-97`). -/
def get_configured_software (cm : ConfigManager) : List String :=
  cm.get_sections.filter fun sect => sect ≠ "common" ∧ sect ≠ "environment"

/-- `PipelineConfig.get_common_packages`
(`production_environment.py:131-145`). -/
def get_common_packages (cm : ConfigManager) :
    Except PyErr (List String × Bool) :=
  match cm.get_merged_config "common" "packages" (some "[]") with
  | .error e => .error e
  | .ok raw =>
    match literalEvalStrList raw with
    | some pkgs => .ok (pkgs, false)
    | none => .ok ([], true)

/-- `PipelineConfig.get_software_packages`
(`production_environment.py:147-166`). -/
def get_software_packages (cm : ConfigManager) (sw : String) :
    Except PyErr (List String × Bool) :=
  if cm.has_section sw then
    match cm.get_merged_config sw "packages" (some "[]") with
    | .error e => .error e
    | .ok raw =>
      match literalEvalStrList raw with
      | some pkgs => .ok (pkgs, false)
      | none => .ok ([], true)
  else
    .ok ([], false)

/-- `PipelineConfig.get_environment_variables`
(`production_environment.py:168-178`). -/
def get_environment_variables (cm : ConfigManager) : Entries :=
  if cm.has_section "environment" = false then []
  else cm.get_section "environment"

/-- Characters before the first hyphen (or all of them, without one). -/
def familyChars : List Char → List Char
  | [] => []
  | c :: rest => if c = '-' then [] else c :: familyChars rest

/-- `pkg.split("-")[0]`: the family of a package identifier — the part
before the first hyphen, or the whole identifier if there is none. -/
def familyOf (pkg : String) : String :=
  String.mk (familyChars pkg.data)

/-- Bool prefix test on character lists. -/
def isPrefixChars : List Char → List Char → Bool
  | [], _ => true
  | _ :: _, [] => false
  | a :: as, b :: bs => a = b && isPrefixChars as bs

/-- Python `s.startswith(pre)`. -/
def startswith (s pre : String) : Bool :=
  isPrefixChars pre.data s.data

/-- `ProductionEnvironment._merge_packages`
(`production_environment.py:364-386`).  The list comprehension evaluates
`override_packages_names[0]` once per base element, so an empty override
list raises `IndexError` as soon as `base_packages` is non-empty. -/
def merge_packages (base overrides : List String) :
    Except PyErr (List String) :=
  let names := overrides.map familyOf
  match base with
  | [] => .ok ([] ++ overrides)
  | _ =>
    match names with
    | [] => .error .indexError
    | n0 :: _ =>
        .ok ((base.filter fun p => !(startswith p n0)) ++ overrides)

/-- `ProductionEnvironment.get_base_packages`
(`production_environment.py:330-344`): common, then pipeline
software-specific, then software-required packages, in that order.  The two
configuration managers are the software one and the pipeline one. -/
def get_base_packages (swCM plCM : ConfigManager) (sw : String) :
    Except PyErr (List String) :=
  match get_common_packages plCM with
  | .error e => .error e
  | .ok common =>
    match get_software_packages plCM sw with
    | .error e => .error e
    | .ok swPkgs =>
      match get_required_packages swCM sw with
      | .error e => .error e
      | .ok req => .ok (common.1 ++ swPkgs.1 ++ req.1)

/-- `ProductionEnvironment.get_software_list`
(`production_environment.py:346-362`): one `{name, version}` entry per
configured software whose version resolves; `ConfigError` is caught and the
entry skipped. -/
def get_software_list (cm : ConfigManager) : List (String × String) :=
  (get_configured_software cm).filterMap fun name =>
    match get_software_version cm name with
    | .ok v => some (name, v)
    | .error _ => none

/-- The package-composition portion of `ProductionEnvironment.execute_software`
(`production_environment.py:388-427`): resolve the version, build the base
list, then merge the caller's additional packages (`None` defaults to `[]`),
unconditionally through `_merge_packages`. -/
def execute_software_packages (swCM plCM : ConfigManager) (sw : String)
    (additional : List String) : Except PyErr (String × List String) :=
  match get_software_version swCM sw with
  | .error e => .error e
  | .ok version =>
    match get_base_packages swCM plCM sw with
    | .error e => .error e
    | .ok basePkgs =>
      match merge_packages basePkgs additional with
      | .error e => .error e
      | .ok pkgs => .ok (version, pkgs)

/-- Python `str.split(sep)` for a one-character separator, on the character
level: fragments may be empty, the empty string yields one empty fragment. -/
def splitOnSep (sep : Char) : List Char → List (List Char)
  | [] => [[]]
  | c :: rest =>
      if c = sep then [] :: splitOnSep sep rest
      else
        match splitOnSep sep rest with
        | f :: fs => (c :: f) :: fs
        | [] => [[c]]

/-- `p.format(PROD_NAME=self.prod_name)`: substitute every occurrence of
the literal token `{PROD_NAME}`.  The configuration templates contain no
other braces, so `str.format`'s remaining behaviour is not modelled. -/
def replaceProdName (pn : String) : List Char → List Char
  | '{' :: 'P' :: 'R' :: 'O' :: 'D' :: '_' :: 'N' :: 'A' :: 'M' :: 'E' :: '}' :: rest =>
      pn.data ++ replaceProdName pn rest
  | c :: rest => c :: replaceProdName pn rest
  | [] => []

/-- `ProductionEnvironment._expand_paths`
(`production_environment.py:213-228`): a plain split on `os.pathsep`
(`:` on POSIX, `;` on Windows), then per-fragment `os.path.expandvars`
(identity here: the modelled inputs contain no `$`) and `{PROD_NAME}`
substitution.  Note that this does NOT use `PathProcessor.split_paths`. -/
def expand_paths (pathsep : Char) (prodName paths : String) : List String :=
  (splitOnSep pathsep paths.data).map fun cs =>
    String.mk (replaceProdName prodName cs)

/-- The outside world seen by `ProductionEnvironment.__init__`: the parsed
settings file if it exists, and the parsed configuration file at each path
that exists on disk. -/
structure World where
  settings : Option Ini
  disk : String → Option Ini

/-- `ProductionEnvironment._load_config_paths`
(`production_environment.py:230-265`). -/
def load_config_paths (pathsep : Char) (prodName : String) (w : World) :
    Except PyErr (List String × List String) :=
  match w.settings with
  | none => .error (.configError "Prod settings file not found")
  | some ini =>
    let settings : ConfigManager := ConfigManager.empty.loadParsed ini
    if settings.has_section "environment" = false then
      .error (.configError "Missing 'environment' section in prod settings file")
    else
      match settings.get_merged_config "environment" "SOFTWARE_CONFIG" (some ""),
            settings.get_merged_config "environment" "PIPELINE_CONFIG" (some "") with
      | .ok swPaths, .ok plPaths =>
        if swPaths = "" ∨ plPaths = "" then
          .error (.configError
            "Missing SOFTWARE_CONFIG or PIPELINE_CONFIG in prod settings")
        else
          .ok (expand_paths pathsep prodName swPaths,
               expand_paths pathsep prodName plPaths)
      | .error e, _ => .error e
      | _, .error e => .error e

/-- `ProductionEnvironment._parse_software_config` /
`_parse_pipeline_config` (`production_environment.py:267-303`): load every
listed path that exists into a fresh manager, recording a warning for each
missing one. -/
def parse_configs (w : World) (paths : List String) :
    ConfigManager × List String :=
  paths.foldl
    (fun acc p =>
      match w.disk p with
      | some ini => (acc.1.loadParsed ini, acc.2)
      | none => (acc.1, acc.2 ++ [s!"config not found: {p}"]))
    (ConfigManager.empty, [])

/-- The keyword parameters accepted by `RezManager.__init__`
(`rez_manager.py:21-30`): only `self` — no keyword at all. -/
def rezManagerInitKwargs : List String := []

/-- Python call semantics for keyword arguments: passing a keyword the
callee does not accept raises `TypeError` before the body runs. -/
def callWithKwargs (accepted passed : List String) : Except PyErr Unit :=
  if passed.all (accepted.contains ·) then .ok ()
  else .error (.typeError "unexpected keyword argument")

/-- `ProductionEnvironment.__init__` (`production_environment.py:186-201`):
load the configuration paths, parse the software and pipeline managers, then
construct `EnvironmentManager()` (cannot fail here) and
`RezManager(verbose=verbose)`.  On success the state is the two managers
plus the accumulated missing-file warnings. -/
def production_environment_init (pathsep : Char) (prodName : String)
    (_verbose : Bool) (w : World) :
    Except PyErr (ConfigManager × ConfigManager × List String) :=
  match load_config_paths pathsep prodName w with
  | .error e => .error e
  | .ok (swPaths, plPaths) =>
    let (swCM, warn1) := parse_configs w swPaths
    let (plCM, warn2) := parse_configs w plPaths
    match callWithKwargs rezManagerInitKwargs ["verbose"] with
    | .error e => .error e
    | .ok _ => .ok (swCM, plCM, warn1 ++ warn2)

/-- Load a sequence of parsed sources into a manager, in order — the loop of
`ProductionEnvironment._parse_software_config` over existing files. -/
def loadAll (cm : ConfigManager) : List Ini → ConfigManager
  | [] => cm
  | l :: ls => loadAll (cm.loadParsed l) ls

/-- The value of `(sect, key)` in the most recently loaded layer defining
it: later layers win. -/
def lastWins (layers : List Ini) (sect key : String) : Option String :=
  match layers with
  | [] => none
  | l :: ls => (lastWins ls sect key <|> storeLookup l sect key)

/-- The merge described by the claim (spec §4.5): remove from `base` exactly
the identifiers whose family EQUALS the family of the first override
identifier, then append the overrides.  Stated for comparison with the
source's `merge_packages`. -/
def specMergeByFamily (base overrides : List String) : List String :=
  (base.filter fun p => familyOf p ≠ familyOf (overrides.headD "")) ++ overrides

/-- A fully valid construction environment: settings file present with the
`environment` section and both keys, both listed configuration files on
disk. -/
def validWorld : World where
  settings := some [("environment",
    [("SOFTWARE_CONFIG", "/studio/software.ini"),
     ("PIPELINE_CONFIG", "/studio/pipeline.ini")])]
  disk := fun p =>
    if p = "/studio/software.ini" then
      some [("maya", [("version", "2023.3.0")])]
    else if p = "/studio/pipeline.ini" then
      some [("common", [("packages", "[\"vfxCore-2.5\"]")])]
    else none

/-! Auxiliary lemmas. -/

theorem lexLe_total : ∀ as bs : List Char, lexLe as bs = true ∨ lexLe bs as = true
  | [], _ => Or.inl rfl
  | _ :: _, [] => Or.inr rfl
  | a :: as, b :: bs => by
      by_cases hab : a = b
      · subst hab
        simpa [lexLe] using lexLe_total as bs
      · rcases lt_or_gt_of_ne hab with h | h
        · left; simp [lexLe, hab, h]
        · right
          have hba : b ≠ a := fun e => hab e.symm
          simp [lexLe, hba, h]

theorem lexLe_trans : ∀ as bs cs : List Char,
    lexLe as bs = true → lexLe bs cs = true → lexLe as cs = true
  | [], _, _, _, _ => rfl
  | a :: as, [], _, h, _ => by simp [lexLe] at h
  | a :: as, b :: bs, [], _, h => by simp [lexLe] at h
  | a :: as, b :: bs, c :: cs, h1, h2 => by
      by_cases hab : a = b
      · subst hab
        by_cases hac : a = c
        · subst hac
          simp only [lexLe, if_pos rfl] at h1 h2 ⊢
          exact lexLe_trans as bs cs h1 h2
        · simp only [lexLe, if_pos rfl] at h1
          simpa [lexLe, hac] using h2
      · by_cases hbc : b = c
        · subst hbc
          simpa [lexLe, hab] using h1
        · have h1' : a < b := by simpa [lexLe, hab] using h1
          have h2' : b < c := by simpa [lexLe, hbc] using h2
          have hac : a < c := lt_trans h1' h2'
          have : a ≠ c := ne_of_lt hac
          simp [lexLe, this, hac]

theorem lexLe_antisymm : ∀ as bs : List Char,
    lexLe as bs = true → lexLe bs as = true → as = bs
  | [], [], _, _ => rfl
  | [], _ :: _, _, h => by simp [lexLe] at h
  | _ :: _, [], h, _ => by simp [lexLe] at h
  | a :: as, b :: bs, h1, h2 => by
      by_cases hab : a = b
      · subst hab
        simp only [lexLe, if_pos rfl] at h1 h2
        exact congrArg (a :: ·) (lexLe_antisymm as bs h1 h2)
      · have hba : b ≠ a := fun e => hab e.symm
        have h1' : a < b := by simpa [lexLe, hab] using h1
        have h2' : b < a := by simpa [lexLe, hba] using h2
        exact absurd h2' (not_lt_of_lt h1')

instance : IsTotal String strLe := ⟨fun a b => lexLe_total a.data b.data⟩

instance : IsTrans String strLe :=
  ⟨fun a b c => lexLe_trans a.data b.data c.data⟩

instance : IsAntisymm String strLe :=
  ⟨fun a b h1 h2 => by
    have h := lexLe_antisymm a.data b.data h1 h2
    cases a; cases b; exact congrArg String.mk h⟩

/-- Well-formedness of a parsed source, as `configparser` guarantees it:
section names are unique in the file, keys are unique within a section
(duplicates make `configparser.read` raise). -/
def WFIni (src : Ini) : Prop :=
  (src.map Prod.fst).Nodup ∧ ∀ p ∈ src, (p.2.map Prod.fst).Nodup

instance : DecidablePred WFIni := fun src => by unfold WFIni; infer_instance

theorem lookupEntry_eq_none_of_not_mem {es : Entries} {k : String}
    (h : k ∉ es.map Prod.fst) : lookupEntry es k = none := by
  induction es with
  | nil => rfl
  | cons p rest ih =>
    simp only [List.map_cons, List.mem_cons, not_or] at h
    cases p with
    | mk k' v' =>
      have : k' ≠ k := fun e => h.1 e.symm
      simp [lookupEntry, this, ih h.2]

theorem storeSection_eq_none_of_not_mem {st : Store} {sect : String}
    (h : sect ∉ st.map Prod.fst) : storeSection st sect = none := by
  induction st with
  | nil => rfl
  | cons p rest ih =>
    simp only [List.map_cons, List.mem_cons, not_or] at h
    cases p with
    | mk n es =>
      have : n ≠ sect := fun e => h.1 e.symm
      simp [storeSection, this, ih h.2]

theorem lookupEntry_setEntry (es : Entries) (k v q : String) :
    lookupEntry (setEntry es k v) q = if k = q then some v else lookupEntry es q := by
  induction es with
  | nil =>
    by_cases h : k = q <;> simp [setEntry, lookupEntry, h]
  | cons p rest ih =>
    cases p with
    | mk k' v' =>
      by_cases hk : k' = k
      · subst hk
        by_cases hq : k' = q <;> simp [setEntry, lookupEntry, hq]
      · by_cases hq : k' = q
        · subst hq
          have hkq : ¬ k = k' := fun e => hk e.symm
          simp [setEntry, lookupEntry, hk, hkq]
        · simp [setEntry, lookupEntry, hk, hq, ih]

theorem storeLookup_eq (st : Store) (q r : String) :
    storeLookup st q r = lookupEntry ((storeSection st q).getD []) r := by
  unfold storeLookup
  cases storeSection st q <;> simp [lookupEntry]

theorem storeSection_storeSet (st : Store) (sect key v q : String) :
    storeSection (storeSet st sect key v) q =
      if sect = q then some (setEntry ((storeSection st sect).getD []) key v)
      else storeSection st q := by
  induction st with
  | nil =>
    by_cases h : sect = q <;> simp [storeSet, storeSection, setEntry, h]
  | cons p rest ih =>
    cases p with
    | mk n es =>
      by_cases hn : n = sect
      · subst hn
        by_cases hq : n = q <;> simp [storeSet, storeSection, hq]
      · by_cases hq : n = q
        · subst hq
          have hsq : ¬ sect = n := fun e => hn e.symm
          simp [storeSet, storeSection, hn, hsq]
        · simp [storeSet, storeSection, hn, hq, ih]

theorem storeLookup_storeSet (st : Store) (sect key v q r : String) :
    storeLookup (storeSet st sect key v) q r =
      if sect = q ∧ key = r then some v else storeLookup st q r := by
  rw [storeLookup_eq, storeSection_storeSet]
  by_cases hq : sect = q
  · subst hq
    rw [if_pos rfl, Option.getD_some, lookupEntry_setEntry]
    by_cases hr : key = r
    · rw [if_pos hr, if_pos ⟨rfl, hr⟩]
    · rw [if_neg hr, if_neg (fun hc => hr hc.2), storeLookup_eq]
  · rw [if_neg hq, if_neg (fun hc => hq hc.1), ← storeLookup_eq]

theorem storeLookup_readEntries (st : Store) (sect : String) (es : Entries)
    (q r : String) (hnd : (es.map Prod.fst).Nodup) :
    storeLookup (readEntries st sect es) q r =
      ((if sect = q then lookupEntry es r else none) <|> storeLookup st q r) := by
  induction es generalizing st with
  | nil =>
    by_cases h : sect = q <;> simp [readEntries, lookupEntry, h]
  | cons p rest ih =>
    cases p with
    | mk k v =>
      simp only [List.map_cons, List.nodup_cons] at hnd
      rw [readEntries, ih (storeSet st sect k v) hnd.2, storeLookup_storeSet]
      by_cases hq : sect = q
      · subst hq
        by_cases hr : k = r
        · subst hr
          simp [lookupEntry_eq_none_of_not_mem hnd.1, lookupEntry]
        · simp [lookupEntry, hr]
      · simp [hq]

theorem storeLookup_readInto (st : Store) (src : Ini) (q r : String)
    (h : WFIni src) :
    storeLookup (readInto st src) q r =
      (storeLookup src q r <|> storeLookup st q r) := by
  induction src generalizing st with
  | nil => simp [readInto, storeLookup, storeSection]
  | cons p rest ih =>
    cases p with
    | mk sect es =>
      obtain ⟨hsects, hkeys⟩ := h
      simp only [List.map_cons, List.nodup_cons] at hsects
      have hes : (es.map Prod.fst).Nodup := hkeys _ (List.mem_cons_self _ _)
      have hwf : WFIni rest :=
        ⟨hsects.2, fun p hp => hkeys p (List.mem_cons_of_mem _ hp)⟩
      rw [readInto, ih _ hwf, storeLookup_readEntries _ _ _ _ _ hes]
      by_cases hq : sect = q
      · subst hq
        have hnone : storeSection rest sect = none :=
          storeSection_eq_none_of_not_mem hsects.1
        have hrest : storeLookup rest sect r = none := by
          rw [storeLookup_eq, hnone]
          rfl
        have hhead : storeLookup ((sect, es) :: rest) sect r = lookupEntry es r := by
          rw [storeLookup_eq]
          simp [storeSection]
        rw [hrest, hhead]
        simp
      · have hhead : storeLookup ((sect, es) :: rest) q r = storeLookup rest q r := by
          unfold storeLookup
          simp [storeSection, hq]
        rw [hhead]
        simp only [if_neg hq, Option.none_orElse]

theorem option_orElse_assoc (a b c : Option α) :
    ((a <|> b) <|> c) = (a <|> (b <|> c)) := by
  cases a <;> simp

theorem override_loadAll (cm : ConfigManager) (layers : List Ini) :
    (loadAll cm layers).override = cm.override := by
  induction layers generalizing cm with
  | nil => rfl
  | cons l ls ih => rw [loadAll, ih]; rfl

theorem base_storeLookup_loadAll (cm : ConfigManager) (layers : List Ini)
    (q r : String) (h : ∀ l ∈ layers, WFIni l) :
    storeLookup (loadAll cm layers).base q r =
      (lastWins layers q r <|> storeLookup cm.base q r) := by
  induction layers generalizing cm with
  | nil => simp [loadAll, lastWins]
  | cons l ls ih =>
    have hl : WFIni l := h l (List.mem_cons_self _ _)
    have hls : ∀ x ∈ ls, WFIni x := fun x hx => h x (List.mem_cons_of_mem _ hx)
    rw [loadAll, ih _ hls, lastWins, option_orElse_assoc]
    have : storeLookup (cm.loadParsed l).base q r =
        (storeLookup l q r <|> storeLookup cm.base q r) :=
      storeLookup_readInto cm.base l q r hl
    rw [this]

theorem lookupEntry_dictUpdate (d : Entries) (src : Entries) (q : String)
    (hnd : (src.map Prod.fst).Nodup) :
    lookupEntry (dictUpdate d src) q =
      (lookupEntry src q <|> lookupEntry d q) := by
  induction src generalizing d with
  | nil => simp [dictUpdate, lookupEntry]
  | cons p rest ih =>
    cases p with
    | mk k v =>
      simp only [List.map_cons, List.nodup_cons] at hnd
      have step : dictUpdate d ((k, v) :: rest) = dictUpdate (setEntry d k v) rest := rfl
      rw [step, ih _ hnd.2, lookupEntry_setEntry]
      by_cases hk : k = q
      · subst hk
        rw [lookupEntry_eq_none_of_not_mem hnd.1]
        simp [lookupEntry]
      · simp [lookupEntry, hk]

/-- C4: for every (section, key), any number of loaded base layers and any
override-layer state, `get_merged_config` returns the override layer's value
if present; otherwise the value from the most recently loaded base layer
defining that key (later loads win key-for-key); otherwise the supplied
default; otherwise a `ConfigError` naming `section.key` — for any number of
layers defining the key. -/
theorem resolve_precedence_order (layers : List Ini) (ov : Store)
    (sect key : String) (dflt : Option String)
    (h : ∀ l ∈ layers, WFIni l) :
    ConfigManager.get_merged_config
        ⟨(loadAll ConfigManager.empty layers).base, ov⟩ sect key dflt =
      match storeLookup ov sect key with
      | some v => .ok v
      | none =>
        match lastWins layers sect key with
        | some v => .ok v
        | none =>
          match dflt with
          | some d => .ok d
          | none => .error (.configError
              ("Configuration key not found: " ++ sect ++ "." ++ key)) := by
  have hbase : storeLookup (loadAll ConfigManager.empty layers).base sect key =
      lastWins layers sect key := by
    rw [base_storeLookup_loadAll _ _ _ _ h]
    show (lastWins layers sect key <|> none) = _
    cases lastWins layers sect key <;> rfl
  unfold ConfigManager.get_merged_config
  simp only [hbase]

theorem resolve_precedence_order_witness :
    (∀ l ∈ [[("maya", [("version", "1")])],
            [("maya", [("version", "2")])],
            [("maya", [("version", "3")])]], WFIni l) ∧
    ConfigManager.get_merged_config
        ⟨(loadAll ConfigManager.empty
            [[("maya", [("version", "1")])],
             [("maya", [("version", "2")])],
             [("maya", [("version", "3")])]]).base,
          [("maya", [("version", "ov")])]⟩ "maya" "version" none = .ok "ov" ∧
    ConfigManager.get_merged_config
        ⟨(loadAll ConfigManager.empty
            [[("maya", [("version", "1")])],
             [("maya", [("version", "2")])],
             [("maya", [("version", "3")])]]).base,
          []⟩ "maya" "version" none = .ok "3" := by
  refine ⟨by decide, ?_, ?_⟩
  · exact (resolve_precedence_order
      [[("maya", [("version", "1")])],
       [("maya", [("version", "2")])],
       [("maya", [("version", "3")])]]
      [("maya", [("version", "ov")])] "maya" "version" none (by decide)).trans
      (by decide)
  · exact (resolve_precedence_order
      [[("maya", [("version", "1")])],
       [("maya", [("version", "2")])],
       [("maya", [("version", "3")])]]
      [] "maya" "version" none (by decide)).trans (by decide)

theorem software_list_names_eq (cm : ConfigManager) :
    (get_software_list cm).map Prod.fst =
      (get_configured_software cm).filter
        (fun n => (get_software_version cm n).isOk) := by
  unfold get_software_list
  induction get_configured_software cm with
  | nil => rfl
  | cons n rest ih =>
    cases hv : get_software_version cm n with
    | ok v => simp [List.filterMap_cons, List.filter_cons, hv, Except.isOk,
        Except.toBool, ih]
    | error e => simp [List.filterMap_cons, List.filter_cons, hv, Except.isOk,
        Except.toBool, ih]

/-- C10: `get_sections` returns the union of the section names of the base
and override parsers, lexicographically sorted and duplicate-free; the
result is determined by the name sets alone (independent of file content
order and load order); consequently `get_configured_software` and the name
column of `get_software_list` are sorted too. -/
theorem get_sections_sorted_deterministic (cm : ConfigManager) :
    (List.Sorted strLe cm.get_sections ∧ cm.get_sections.Nodup) ∧
    (∀ s, s ∈ cm.get_sections ↔
      (s ∈ cm.base.map Prod.fst ∨ s ∈ cm.override.map Prod.fst)) ∧
    (∀ cm' : ConfigManager,
      (∀ s, (s ∈ cm.base.map Prod.fst ∨ s ∈ cm.override.map Prod.fst) ↔
            (s ∈ cm'.base.map Prod.fst ∨ s ∈ cm'.override.map Prod.fst)) →
      cm.get_sections = cm'.get_sections) ∧
    List.Sorted strLe (get_configured_software cm) ∧
    List.Sorted strLe ((get_software_list cm).map Prod.fst) := by
  have hsorted : ∀ x : ConfigManager, x.get_sections.Sorted strLe :=
    fun x => List.sorted_insertionSort strLe _
  have hnodup : ∀ x : ConfigManager, x.get_sections.Nodup := fun x =>
    (List.perm_insertionSort strLe _).symm.nodup (List.nodup_dedup _)
  have hmem : ∀ (x : ConfigManager) (s : String), s ∈ x.get_sections ↔
      (s ∈ x.base.map Prod.fst ∨ s ∈ x.override.map Prod.fst) := by
    intro x s
    unfold ConfigManager.get_sections
    rw [List.mem_insertionSort, List.mem_dedup, List.mem_append]
  refine ⟨⟨hsorted cm, hnodup cm⟩, hmem cm, ?_, ?_, ?_⟩
  · intro cm' hiff
    have hperm : List.Perm cm.get_sections cm'.get_sections := by
      rw [List.perm_ext_iff_of_nodup (hnodup cm) (hnodup cm')]
      intro s
      rw [hmem cm s, hmem cm' s]
      exact hiff s
    exact List.eq_of_perm_of_sorted hperm (hsorted cm) (hsorted cm')
  · exact (hsorted cm).filter _
  · rw [software_list_names_eq]
    exact ((hsorted cm).filter _).filter _

theorem get_sections_sorted_deterministic_witness :
    ConfigManager.get_sections ⟨[("b", []), ("a", [])], []⟩ =
      ConfigManager.get_sections ⟨[("a", [])], [("b", [])]⟩ ∧
    ConfigManager.get_sections ⟨[("b", []), ("a", [])], []⟩ = ["a", "b"] :=
  ⟨(get_sections_sorted_deterministic ⟨[("b", []), ("a", [])], []⟩).2.2.1
      ⟨[("a", [])], [("b", [])]⟩ (by intro s; simp; tauto), by decide⟩

/-- C8: `get_software_version` fails with a `ConfigError` naming the
software when its section is missing, and with a "not configured" version
`ConfigError` when the section exists but `(software, "version")` is
unresolvable; `get_software_list` contains `(name, version)` exactly for the
non-reserved sections whose version resolves (one entry each, never an
error — the function is total by construction), silently omitting the
rest. -/
theorem software_version_listing_errors (cm : ConfigManager) (sw : String) :
    (cm.has_section sw = false →
      get_software_version cm sw =
        .error (.configError s!"Software '{sw}' is not configured")) ∧
    (∀ e, cm.has_section sw = true →
      cm.get_merged_config sw "version" none = .error e →
      get_software_version cm sw =
        .error (.configError s!"Version for software '{sw}' is not configured")) ∧
    (∀ n v, (n, v) ∈ get_software_list cm ↔
      (n ∈ get_configured_software cm ∧ get_software_version cm n = .ok v)) ∧
    ((get_software_list cm).map Prod.fst).Nodup := by
  refine ⟨?_, ?_, ?_, ?_⟩
  · intro h
    unfold get_software_version
    rw [h]
    rfl
  · intro e h he
    unfold get_software_version
    rw [h, he]
    rfl
  · intro n v
    unfold get_software_list
    rw [List.mem_filterMap]
    constructor
    · rintro ⟨a, ha, hfa⟩
      cases hv : get_software_version cm a with
      | ok w =>
        rw [hv] at hfa
        have h1 : a = n := congrArg Prod.fst (Option.some.inj hfa)
        have h2 : w = v := congrArg Prod.snd (Option.some.inj hfa)
        subst h1; subst h2
        exact ⟨ha, hv⟩
      | error e =>
        rw [hv] at hfa
        cases hfa
    · rintro ⟨hmem, hver⟩
      exact ⟨n, hmem, by rw [hver]⟩
  · rw [software_list_names_eq]
    exact ((get_sections_sorted_deterministic cm).1.2.filter _).filter _

theorem software_version_listing_errors_witness :
    (ConfigManager.has_section
        ⟨[("maya", [("version", "1")]), ("nover", [("packages", "[]")])], []⟩
        "gap" = false ∧
      get_software_version
        ⟨[("maya", [("version", "1")]), ("nover", [("packages", "[]")])], []⟩
        "gap" = .error (.configError "Software 'gap' is not configured")) ∧
    (get_software_version
        ⟨[("maya", [("version", "1")]), ("nover", [("packages", "[]")])], []⟩
        "nover" =
      .error (.configError "Version for software 'nover' is not configured")) ∧
    get_software_list
        ⟨[("maya", [("version", "1")]), ("nover", [("packages", "[]")])], []⟩
      = [("maya", "1")] := by
  refine ⟨⟨by decide, ?_⟩, ?_, by decide⟩
  · exact (software_version_listing_errors
      ⟨[("maya", [("version", "1")]), ("nover", [("packages", "[]")])], []⟩
      "gap").1 (by decide)
  · exact (software_version_listing_errors
      ⟨[("maya", [("version", "1")]), ("nover", [("packages", "[]")])], []⟩
      "nover").2.1 (.configError "Configuration key not found: nover.version")
      (by decide) (by decide)

/-- C7: whenever the raw `packages` value resolved for a section fails to
decode as a list literal, `get_required_packages`, `get_common_packages`
and `get_software_packages` each log a warning (the `true` flag) and return
the empty list as an `ok` result — the decode failure never propagates. -/
theorem packages_decode_failure_warns_empty (swc plc : ConfigManager)
    (sw raw : String) :
    (swc.has_section sw = true →
      swc.get_merged_config sw "packages" (some "[]") = .ok raw →
      literalEvalStrList raw = none →
      get_required_packages swc sw = .ok ([], true)) ∧
    (plc.get_merged_config "common" "packages" (some "[]") = .ok raw →
      literalEvalStrList raw = none →
      get_common_packages plc = .ok ([], true)) ∧
    (plc.has_section sw = true →
      plc.get_merged_config sw "packages" (some "[]") = .ok raw →
      literalEvalStrList raw = none →
      get_software_packages plc sw = .ok ([], true)) := by
  refine ⟨?_, ?_, ?_⟩
  · intro hs hraw hdec
    unfold get_required_packages
    rw [hs, hraw]
    simp [hdec]
  · intro hraw hdec
    unfold get_common_packages
    rw [hraw]
    simp [hdec]
  · intro hs hraw hdec
    unfold get_software_packages
    rw [hs, hraw]
    simp [hdec]

theorem packages_decode_failure_warns_empty_witness :
    get_required_packages
        ⟨[("maya", [("packages", "[broken")])], []⟩ "maya" = .ok ([], true) ∧
    get_common_packages
        ⟨[("common", [("packages", "not a list")])], []⟩ = .ok ([], true) ∧
    get_software_packages
        ⟨[("maya", [("packages", "[broken")])], []⟩ "maya" = .ok ([], true) := by
  refine ⟨?_, ?_, ?_⟩
  · exact (packages_decode_failure_warns_empty
      ⟨[("maya", [("packages", "[broken")])], []⟩
      ⟨[("common", [("packages", "not a list")])], []⟩
      "maya" "[broken").1 (by decide) (by decide) (by decide)
  · exact (packages_decode_failure_warns_empty
      ⟨[("maya", [("packages", "[broken")])], []⟩
      ⟨[("common", [("packages", "not a list")])], []⟩
      "maya" "not a list").2.1 (by decide) (by decide)
  · exact (packages_decode_failure_warns_empty
      ⟨[("common", [("packages", "not a list")])], []⟩
      ⟨[("maya", [("packages", "[broken")])], []⟩
      "maya" "[broken").2.2 (by decide) (by decide) (by decide)

/-- C5 counterexample: the source removes base identifiers by PREFIX match
against the first override's family, not by family equality.  For
`base = ["golaem-4"]`, `overrides = ["gol-1.2"]` the family of the first
override is `"gol"`; `"golaem-4"`'s family `"golaem"` differs, so the claim
keeps it, yet the code drops it because `"golaem-4"` starts with `"gol"`. -/
theorem merge_family_equality_counterexample :
    merge_packages ["golaem-4"] ["gol-1.2"] = .ok ["gol-1.2"] ∧
    specMergeByFamily ["golaem-4"] ["gol-1.2"] = ["golaem-4", "gol-1.2"] ∧
    merge_packages ["golaem-4"] ["gol-1.2"]
      ≠ .ok (specMergeByFamily ["golaem-4"] ["gol-1.2"]) := by
  refine ⟨by decide, by decide, by decide⟩

/-- C5 amended: for every base list and non-empty override list,
`merge_packages` removes from `base` exactly the identifiers of which the
FIRST override identifier's family is a string prefix, preserves the
relative order of the surviving base identifiers, and appends the full
override list unchanged; in particular the spec's example
`merge(["vfxCore-2.5","mtoa-2.2","golaem-4"], ["mtoa-2.3"])` holds. -/
theorem merge_prefix_family_override :
    (∀ (base rest : List String) (o : String),
      merge_packages base (o :: rest) =
        .ok ((base.filter fun p => !(startswith p (familyOf o))) ++ (o :: rest))) ∧
    merge_packages ["vfxCore-2.5", "mtoa-2.2", "golaem-4"] ["mtoa-2.3"]
      = .ok ["vfxCore-2.5", "golaem-4", "mtoa-2.3"] := by
  refine ⟨?_, by decide⟩
  intro base rest o
  unfold merge_packages
  cases base with
  | nil => rfl
  | cons b bs => rfl

theorem string_mk_eq_empty {l : List Char} (h : String.mk l = "") : l = [] :=
  congrArg String.data h

theorem split_paths_no_empty_frag (s : String) : "" ∉ split_paths s := by
  unfold split_paths
  simp only []
  split_ifs with h
  · intro hm
    rw [List.mem_singleton] at hm
    exact h.2 hm.symm
  · intro hm
    rw [List.mem_filterMap] at hm
    obtain ⟨part, hmem, hf⟩ := hm
    by_cases hc : '@' ∈ part
    · rw [if_pos hc] at hf
      have h1 : restoreSentinel part = [] :=
        string_mk_eq_empty (Option.some.inj hf)
      have h2 : part = [] := by
        have := congrArg List.length h1
        simpa [restoreSentinel] using this
      rw [h2] at hc
      cases hc
    · rw [if_neg hc] at hf
      by_cases hp : part = []
      · rw [if_neg (by simp [hp])] at hf
        cases hf
      · rw [if_pos hp] at hf
        exact hp (string_mk_eq_empty (Option.some.inj hf))

theorem split_paths_nonempty_of_ne (s : String) (hs : s ≠ "") :
    split_paths s ≠ [] := by
  unfold split_paths
  simp only []
  split_ifs with h
  · exact List.cons_ne_nil _ _
  · intro hres
    exact h ⟨hres, hs⟩

/-- C9 counterexample: the claimed equation
`split("/unix/a:/unix/b") = ["/unix/a", "/unix/b"]` is false — at the path
junction, `a` (a letter) is followed by `:` and `/`, which the scanner
treats as a Windows drive prefix, so the colon is protected and the string
is not split (the repository's own test suite pins this behaviour). -/
theorem split_paths_unix_claim_counterexample :
    split_paths "/unix/a:/unix/b" = ["/unix/a:/unix/b"] ∧
    split_paths "/unix/a:/unix/b" ≠ ["/unix/a", "/unix/b"] := by
  refine ⟨by decide, by decide⟩

/-- C9 amended: `split_paths` is total by construction and satisfies
`split("C:\a\b:D:\c\d") = ["C:\a\b", "D:\c\d"]`;
`split("/unix/a:/unix/b") = ["/unix/a:/unix/b"]` (a letter-colon-slash
junction is protected as a drive prefix); `split("") = []`;
`split("single") = ["single"]`; empty fragments from consecutive or
trailing separators are dropped and never appear in the result; and a
non-empty input never yields an empty result (if the split drops every
fragment, the input itself is returned as the sole element). -/
theorem split_paths_behavior :
    split_paths "C:\\a\\b:D:\\c\\d" = ["C:\\a\\b", "D:\\c\\d"] ∧
    split_paths "/unix/a:/unix/b" = ["/unix/a:/unix/b"] ∧
    split_paths "" = [] ∧
    split_paths "single" = ["single"] ∧
    split_paths "path1::path3" = ["path1", "path3"] ∧
    split_paths "path1::" = ["path1"] ∧
    (∀ s : String, "" ∉ split_paths s) ∧
    (∀ s : String, s ≠ "" → split_paths s ≠ []) := by
  refine ⟨by decide, by decide, by decide, by decide, by decide, by decide,
    split_paths_no_empty_frag, split_paths_nonempty_of_ne⟩

theorem split_paths_behavior_witness :
    (":::" : String) ≠ "" ∧ split_paths ":::" ≠ [] ∧ split_paths ":::" = [":::"] :=
  ⟨by decide, split_paths_behavior.2.2.2.2.2.2.2 ":::" (by decide), by decide⟩

/-- C1 (code bug): `_merge_packages` evaluates `override_packages_names[0]`
inside the base-list comprehension, so an empty override list raises
`IndexError` on any non-empty base list, and `execute_software` calls it
unconditionally — launching with no additional packages (the CLI default)
crashes instead of returning the base list verbatim. -/
theorem merge_empty_overrides_indexError :
    merge_packages ["vfxCore-2.5", "mtoa-2.2", "golaem-4"] []
      = .error .indexError ∧
    execute_software_packages
      (ConfigManager.empty.loadParsed
        [("maya", [("version", "2023"), ("packages", "[\"mtoa-2.3\"]")])])
      (ConfigManager.empty.loadParsed
        [("common", [("packages", "[\"vfxCore-2.5\"]")])])
      "maya" [] = .error .indexError := by
  refine ⟨by decide, by decide⟩

/-- C2 (code bug): `_expand_paths` splits the raw value with a plain
`paths.split(os.pathsep)` and never uses the drive-letter-aware
`PathProcessor`.  On a `:`-delimited host a Windows-style value is cut at
the drive colons (four wrong fragments instead of two paths, drive letters
severed), while `PathProcessor.split_paths` applied to the same expanded
value yields the two intended paths; on a `;`-delimited host a
`:`-separated value is not split at all. -/
theorem expand_paths_plain_split_bug :
    expand_paths ':' "test_prod" "C:\\sw\\studio.ini:C:\\sw\\{PROD_NAME}\\prod.ini"
      = ["C", "\\sw\\studio.ini", "C", "\\sw\\test_prod\\prod.ini"] ∧
    split_paths (String.mk (replaceProdName "test_prod"
        ("C:\\sw\\studio.ini:C:\\sw\\{PROD_NAME}\\prod.ini").data))
      = ["C:\\sw\\studio.ini", "C:\\sw\\test_prod\\prod.ini"] ∧
    expand_paths ';' "test_prod" "/a/{PROD_NAME}.ini:/b.ini"
      = ["/a/test_prod.ini:/b.ini"] := by
  refine ⟨by decide, by decide, by decide⟩

/-- C3 counterexample: `get_environment_variables` returns exactly the
merged `environment` section; when no configuration source defines `PROD`,
the result has no `PROD` entry at all — the claimed guarantee that the
mapping always contains `PROD` equal to the production name fails. -/
theorem environment_variables_no_prod_counterexample :
    get_environment_variables
        (ConfigManager.empty.loadParsed [("environment", [("FOO", "bar")])])
      = [("FOO", "bar")] ∧
    lookupEntry
        (get_environment_variables
          (ConfigManager.empty.loadParsed [("environment", [("FOO", "bar")])]))
        "PROD" = none := by
  refine ⟨by decide, by decide⟩

/-- C3 amended: `get_environment_variables` never inserts a `PROD` entry:
`PROD` is present in the result exactly when some configuration layer
defines it, with the override layer taking precedence and the configured
value returned unchanged (in particular an explicit `PROD` is never
overridden, and absent `PROD` is not supplied). -/
theorem environment_variables_prod_from_config (cm : ConfigManager)
    (hb : ((((storeSection cm.base "environment").getD []).map Prod.fst)).Nodup)
    (ho : ((((storeSection cm.override "environment").getD []).map Prod.fst)).Nodup) :
    lookupEntry (get_environment_variables cm) "PROD" =
      (storeLookup cm.override "environment" "PROD" <|>
        storeLookup cm.base "environment" "PROD") := by
  unfold get_environment_variables
  by_cases h : cm.has_section "environment" = false
  · rw [if_pos h]
    unfold ConfigManager.has_section at h
    rw [Bool.or_eq_false_iff] at h
    obtain ⟨h1, h2⟩ := h
    have h1' : storeSection cm.base "environment" = none := by
      cases hx : storeSection cm.base "environment" with
      | none => rfl
      | some es => rw [hx] at h1; cases h1
    have h2' : storeSection cm.override "environment" = none := by
      cases hx : storeSection cm.override "environment" with
      | none => rfl
      | some es => rw [hx] at h2; cases h2
    rw [storeLookup_eq, storeLookup_eq, h1', h2']
    rfl
  · rw [if_neg h]
    unfold ConfigManager.get_section
    rw [lookupEntry_dictUpdate _ _ _ ho, lookupEntry_dictUpdate _ _ _ hb,
      storeLookup_eq, storeLookup_eq]
    cases lookupEntry ((storeSection cm.override "environment").getD []) "PROD" <;>
      cases lookupEntry ((storeSection cm.base "environment").getD []) "PROD" <;>
      rfl

theorem environment_variables_prod_from_config_witness :
    lookupEntry
        (get_environment_variables
          ⟨[("environment", [("PROD", "explicit"), ("FOO", "bar")])], []⟩)
        "PROD" = some "explicit" :=
  (environment_variables_prod_from_config
      ⟨[("environment", [("PROD", "explicit"), ("FOO", "bar")])], []⟩
      (by decide) (by decide)).trans (by decide)

/-- C6 (code bug): the structural failures are `ConfigError` as claimed
(missing settings source, missing `environment` section, missing keys), and
a listed path that does not exist is skipped with a warning — but an
otherwise fully valid construction does NOT succeed: after loading, the
constructor calls `RezManager(verbose=verbose)` while `RezManager.__init__`
accepts no keyword parameter, so construction raises `TypeError`
unconditionally (the repository's own tests construct
`RezManager(verbose=...)`). -/
theorem production_init_rez_typeError :
    load_config_paths ':' "dlt" ⟨none, fun _ => none⟩
      = .error (.configError "Prod settings file not found") ∧
    load_config_paths ':' "dlt" ⟨some [("other", [])], fun _ => none⟩
      = .error (.configError "Missing 'environment' section in prod settings file") ∧
    load_config_paths ':' "dlt"
        ⟨some [("environment", [("SOFTWARE_CONFIG", "/studio/software.ini")])],
          fun _ => none⟩
      = .error (.configError
          "Missing SOFTWARE_CONFIG or PIPELINE_CONFIG in prod settings") ∧
    load_config_paths ':' "dlt" validWorld
      = .ok (["/studio/software.ini"], ["/studio/pipeline.ini"]) ∧
    (parse_configs validWorld ["/studio/software.ini", "/missing.ini"]).2
      = ["config not found: /missing.ini"] ∧
    (parse_configs validWorld ["/studio/software.ini", "/missing.ini"]).1
      = ConfigManager.empty.loadParsed [("maya", [("version", "2023.3.0")])] ∧
    production_environment_init ':' "dlt" false validWorld
      = .error (.typeError "unexpected keyword argument") := by
  refine ⟨by decide, by decide, by decide, by decide, by decide, by decide,
    by decide⟩
